import Mathlib

/-!
Shallow embedding of the bolt-proxy sources: the Bolt framer and message
classifier (bolt package), the PackStream subset decoder, the backend
authenticator, and the routing-table monitor's pure core.

Modelling conventions: bytes are `Nat` values below 256; Go byte slices are
`List Nat`; Go maps are association lists with Go's insert-or-replace
semantics; a Go `panic` is an explicit outcome constructor; host and
database names are `String`.
-/

namespace BoltProxy

/-- Go `type Type string` in the bolt package: message type tags are strings. -/
abbrev BoltType := String

def ResetMsg : BoltType := "RESET"

def RunMsg : BoltType := "RUN"

def DiscardMsg : BoltType := "DISCARD"

def PullMsg : BoltType := "PULL"

def RecordMsg : BoltType := "RECORD"

def SuccessMsg : BoltType := "SUCCESS"

def IgnoreMsg : BoltType := "IGNORE"

def FailureMsg : BoltType := "FAILURE"

def HelloMsg : BoltType := "HELLO"

def GoodbyeMsg : BoltType := "GOODBYE"

def BeginMsg : BoltType := "BEGIN"

def CommitMsg : BoltType := "COMMIT"

def RollbackMsg : BoltType := "ROLLBACK"

def UnknownMsg : BoltType := "?UNKNOWN?"

def NopMsg : BoltType := "NOP"

/-- `TypeFromByte`: map a dispatch byte to the corresponding Bolt message type. -/
def TypeFromByte (b : Nat) : BoltType :=
  match b with
  | 0x0f => ResetMsg
  | 0x10 => RunMsg
  | 0x2f => DiscardMsg
  | 0x3f => PullMsg
  | 0x71 => RecordMsg
  | 0x70 => SuccessMsg
  | 0x7e => IgnoreMsg
  | 0x7f => FailureMsg
  | 0x01 => HelloMsg
  | 0x02 => GoodbyeMsg
  | 0x11 => BeginMsg
  | 0x12 => CommitMsg
  | 0x13 => RollbackMsg
  | _ => UnknownMsg

/-- `IdentifyType`: classify a framed message from its bytes.  Slices shorter
than 4 bytes are NOP; when byte 0 is zero the dispatch byte is byte 3,
otherwise byte 2. -/
def IdentifyType (buf : List Nat) : BoltType :=
  if buf.length < 4 then NopMsg
  else if buf.getD 0 0 = 0 then TypeFromByte (buf.getD 3 0)
  else TypeFromByte (buf.getD 2 0)

/-- `Message`: a decoded Bolt frame, its type tag and its exact on-wire bytes. -/
structure Message where
  T : BoltType
  Data : List Nat
  deriving DecidableEq

/-- Result of `Parse`.  The Go function's error return value is `nil` on every
reachable return path (the `errors.New` return after the debug panic on a bad
suffix is unreachable dead code), so the outcomes are: a normal return with
the message list and the leftover chunk, or a panic. -/
inductive ParseOutcome where
  | panicked
  | ok (messages : List Message) (tail : List Nat)
  deriving DecidableEq

/-- `binary.BigEndian.Uint16` over two bytes. -/
def uint16BE (b0 b1 : Nat) : Nat := b0 * 256 + b1

/-- The scan loop of `Parse`, recursing on the unconsumed suffix of the
buffer.  At each offset the code reads a 16-bit big-endian chunk length
`msglen`; if the framed message (`msglen + 4` bytes) would overrun the
buffer, the remainder becomes the tail and scanning stops.  Otherwise the
framed message is sliced out; a frame whose last two bytes are not `00 00`
hits the `panic` in the suffix check.

When exactly one byte remains, the two-byte length read `buf[i : i+2]`
extends one byte past the slice length.  At every `Parse` call site in this
repository the slice is a short prefix of a larger backing array, so Go
reads a stray capacity byte instead of panicking; whatever that byte's
value, `msglen + i + 4 > len(buf)` holds, so the loop breaks and returns
the single byte as the tail.  That observable behaviour (independent of the
stray byte's value) is what the `[b]` equation encodes. -/
def ParseAux : List Nat → ParseOutcome
  | [] => .ok [] []
  | [b] => .ok [] [b]
  | b0 :: b1 :: rest =>
    if rest.length + 2 < uint16BE b0 b1 + 4 then .ok [] (b0 :: b1 :: rest)
    else if [0, 0].isSuffixOf ((b0 :: b1 :: rest).take (uint16BE b0 b1 + 4)) then
      match ParseAux ((b0 :: b1 :: rest).drop (uint16BE b0 b1 + 4)) with
      | .panicked => .panicked
      | .ok msgs tail =>
        .ok (⟨IdentifyType ((b0 :: b1 :: rest).take (uint16BE b0 b1 + 4)),
          (b0 :: b1 :: rest).take (uint16BE b0 b1 + 4)⟩ :: msgs) tail
    else .panicked
  termination_by l => l.length
  decreasing_by
    simp only [List.length_drop, List.length_cons]
    omega

/-- `Parse`: try to parse a byte slice into zero or more Bolt messages plus
any remaining leftover chunk. -/
def Parse (buf : List Nat) : ParseOutcome := ParseAux buf

/-- A complete Bolt frame: at least 4 bytes, total length equal to the
declared chunk length plus 4, ending in the `00 00` terminator. -/
def CompleteFrame (f : List Nat) : Prop :=
  4 ≤ f.length ∧ f.length = uint16BE (f.getD 0 0) (f.getD 1 0) + 4 ∧
    [0, 0].isSuffixOf f = true

instance : DecidablePred CompleteFrame := fun f => by
  unfold CompleteFrame; infer_instance

/-- A truncated trailing frame: either nothing, or at least the 2-byte
declared length with the declared length plus 4 exceeding the bytes present. -/
def TruncatedTail (t : List Nat) : Prop :=
  t = [] ∨ (2 ≤ t.length ∧ t.length < uint16BE (t.getD 0 0) (t.getD 1 0) + 4)

instance : DecidablePred TruncatedTail := fun t => by
  unfold TruncatedTail; infer_instance

/-- A well-formed byte stream: a concatenation of complete frames followed by
a truncated trailing frame. -/
def WellFormedStream (buf : List Nat) : Prop :=
  ∃ (frames : List (List Nat)) (tail : List Nat),
    (∀ f ∈ frames, CompleteFrame f) ∧ TruncatedTail tail ∧
      buf = frames.flatten ++ tail

theorem parseAux_nil : ParseAux [] = .ok [] [] := by
  rw [ParseAux.eq_def]

theorem parseAux_one (b : Nat) : ParseAux [b] = .ok [] [b] := by
  rw [ParseAux.eq_def]

theorem parseAux_cons (b0 b1 : Nat) (rest : List Nat) :
    ParseAux (b0 :: b1 :: rest) =
      if rest.length + 2 < uint16BE b0 b1 + 4 then .ok [] (b0 :: b1 :: rest)
      else if [0, 0].isSuffixOf ((b0 :: b1 :: rest).take (uint16BE b0 b1 + 4)) then
        match ParseAux ((b0 :: b1 :: rest).drop (uint16BE b0 b1 + 4)) with
        | .panicked => .panicked
        | .ok msgs tail =>
          .ok (⟨IdentifyType ((b0 :: b1 :: rest).take (uint16BE b0 b1 + 4)),
            (b0 :: b1 :: rest).take (uint16BE b0 b1 + 4)⟩ :: msgs) tail
      else .panicked := by
  rw [ParseAux.eq_def]

/-- On a stream of complete frames followed by a truncated tail, the scan
returns exactly one message per frame, carrying the frame's bytes, and the
tail. -/
theorem parseAux_frames (frames : List (List Nat)) (tail : List Nat)
    (hf : ∀ f ∈ frames, CompleteFrame f) (ht : TruncatedTail tail) :
    ParseAux (frames.flatten ++ tail) =
      .ok (frames.map (fun f => ⟨IdentifyType f, f⟩)) tail := by
  induction frames with
  | nil =>
    simp only [List.flatten_nil, List.nil_append, List.map_nil]
    rcases ht with rfl | ⟨h2, hlt⟩
    · exact parseAux_nil
    · rcases tail with _ | ⟨t0, tail1⟩
      · simp at h2
      rcases tail1 with _ | ⟨t1, trest⟩
      · simp at h2
      rw [parseAux_cons]
      simp only [List.getD_cons_zero, List.getD_cons_succ, List.length_cons] at hlt
      rw [if_pos (by omega)]
  | cons f fs ih =>
    have hcf := hf f (List.mem_cons_self f fs)
    obtain ⟨hlen, hdecl, hsuf⟩ := hcf
    rcases f with _ | ⟨a, f1⟩
    · simp at hlen
    rcases f1 with _ | ⟨b, frest⟩
    · simp at hlen
    simp only [List.getD_cons_zero, List.getD_cons_succ, List.length_cons] at hdecl
    have htake : ((a :: b :: frest) ++ (fs.flatten ++ tail)).take (uint16BE a b + 4) =
        a :: b :: frest := List.take_left' (by simp only [List.length_cons]; omega)
    have hdrop : ((a :: b :: frest) ++ (fs.flatten ++ tail)).drop (uint16BE a b + 4) =
        fs.flatten ++ tail := List.drop_left' (by simp only [List.length_cons]; omega)
    simp only [List.cons_append] at htake hdrop
    simp only [List.flatten_cons, List.cons_append, List.append_assoc]
    rw [parseAux_cons]
    rw [if_neg (by simp only [List.length_append]; omega)]
    rw [htake, hdrop, if_pos hsuf, ih (fun g hg => hf g (List.mem_cons_of_mem _ hg))]
    simp

/-- C1: parsing a well-formed byte stream with `Parse` and concatenating each
returned message's `Data`, in order, followed by the returned tail,
reproduces the input exactly. -/
theorem parse_wellformed_roundtrip (buf : List Nat) (h : WellFormedStream buf) :
    ∃ msgs tail, Parse buf = .ok msgs tail ∧
      (msgs.map Message.Data).flatten ++ tail = buf := by
  obtain ⟨frames, tail, hf, ht, rfl⟩ := h
  refine ⟨_, tail, parseAux_frames frames tail hf ht, ?_⟩
  simp [List.map_map, Function.comp_def]

/-- Witness for C1 at the concrete stream `00 00 00 00 | 00 05`: one empty
frame followed by a two-byte truncated tail. -/
theorem parse_wellformed_roundtrip_witness :
    WellFormedStream [0, 0, 0, 0, 0, 5] ∧
      ∃ msgs tail, Parse [0, 0, 0, 0, 0, 5] = .ok msgs tail ∧
        (msgs.map Message.Data).flatten ++ tail = [0, 0, 0, 0, 0, 5] := by
  have hwf : WellFormedStream [0, 0, 0, 0, 0, 5] :=
    ⟨[[0, 0, 0, 0]], [0, 5], by decide, by decide, by decide⟩
  exact ⟨hwf, parse_wellformed_roundtrip _ hwf⟩

/-- C4: on a buffer whose final frame is truncated (its declared length plus 4
exceeds the bytes remaining), `Parse` returns every complete preceding frame
as a message, the truncated remainder as the tail, and does not fail. -/
theorem parse_truncated_frame (frames : List (List Nat)) (tail : List Nat)
    (hf : ∀ f ∈ frames, CompleteFrame f)
    (h2 : 2 ≤ tail.length)
    (htr : tail.length < uint16BE (tail.getD 0 0) (tail.getD 1 0) + 4) :
    Parse (frames.flatten ++ tail) =
      .ok (frames.map (fun f => ⟨IdentifyType f, f⟩)) tail :=
  parseAux_frames frames tail hf (Or.inr ⟨h2, htr⟩)

/-- Witness for C4: one complete empty frame, then a frame declaring 9 payload
bytes with only one present. -/
theorem parse_truncated_frame_witness :
    Parse [0, 0, 0, 0, 0, 9, 1] =
      .ok ([[0, 0, 0, 0]].map (fun f => ⟨IdentifyType f, f⟩)) [0, 9, 1] :=
  parse_truncated_frame [[0, 0, 0, 0]] [0, 9, 1] (by decide) (by decide) (by decide)

/-- C5 (code bug): on a buffer whose framed message is fully present but does
not end with the `00 00` terminator, `Parse` panics.  The suffix check hits
the debug `panic` call, and the `errors.New("bad message: missing suffix")`
return placed directly after it is unreachable, so no error is ever
returned. -/
theorem parse_missing_suffix_panics :
    Parse [0x00, 0x01, 0xb1, 0x71, 0x01] = .panicked := by
  unfold Parse
  rw [parseAux_cons]
  decide

/-- The spec's fixed dispatch table, written from the spec's words: HELLO=0x01,
GOODBYE=0x02, RESET=0x0F, RUN=0x10, BEGIN=0x11, COMMIT=0x12, ROLLBACK=0x13,
DISCARD=0x2F, PULL=0x3F, SUCCESS=0x70, RECORD=0x71, IGNORE=0x7E,
FAILURE=0x7F, every other byte UNKNOWN.  Compared against `TypeFromByte`. -/
def specDispatchTable : List (Nat × BoltType) :=
  [(0x01, HelloMsg), (0x02, GoodbyeMsg), (0x0f, ResetMsg), (0x10, RunMsg),
   (0x11, BeginMsg), (0x12, CommitMsg), (0x13, RollbackMsg), (0x2f, DiscardMsg),
   (0x3f, PullMsg), (0x70, SuccessMsg), (0x71, RecordMsg), (0x7e, IgnoreMsg),
   (0x7f, FailureMsg)]

/-- Spec-side classification of a dispatch byte. -/
def specTypeOf (b : Nat) : BoltType :=
  (specDispatchTable.lookup b).getD UnknownMsg

set_option maxRecDepth 8192 in
/-- C7: `IdentifyType` classifies per the fixed dispatch table: slices shorter
than 4 bytes yield NOP; otherwise the dispatch byte is byte 3 when byte 0 is
0x00 and byte 2 otherwise; and `TypeFromByte` agrees with the spec's table on
every byte value. -/
theorem identifyType_dispatch_table :
    (∀ buf : List Nat, buf.length < 4 → IdentifyType buf = NopMsg) ∧
    (∀ buf : List Nat, 4 ≤ buf.length →
      IdentifyType buf =
        TypeFromByte (if buf.getD 0 0 = 0 then buf.getD 3 0 else buf.getD 2 0)) ∧
    (∀ b : Fin 256, TypeFromByte b.val = specTypeOf b.val) := by
  refine ⟨?_, ?_, by decide⟩
  · intro buf h
    simp [IdentifyType, h]
  · intro buf h
    rw [IdentifyType, if_neg (by omega), apply_ite TypeFromByte]

/-- Witness for C7: a short slice, a zero-prefixed RECORD frame, and the RUN
dispatch byte. -/
theorem identifyType_dispatch_table_witness :
    IdentifyType [0, 0] = NopMsg ∧
      IdentifyType [0, 4, 0xb1, 0x71] = TypeFromByte 0x71 ∧
      TypeFromByte 0x10 = specTypeOf 0x10 := by
  have h := identifyType_dispatch_table
  refine ⟨h.1 [0, 0] (by decide), ?_, h.2.2 ⟨0x10, by decide⟩⟩
  have h2 := h.2.1 [0, 4, 0xb1, 0x71] (by decide)
  simpa using h2

/-- PackStream values producible by the partial decoder: Go `interface{}`
results of tiny-int, tiny-string/string (kept as raw bytes), tiny-array and
tiny-map decoding. -/
inductive PSValue where
  | int (n : Nat)
  | str (s : List Nat)
  | arr (a : List PSValue)
  | map (m : List (List Nat × PSValue))

/-- Result of a PackStream sub-parser: a Go panic, an error return, or a
decoded value with the number of bytes consumed. -/
inductive PSRes (α : Type) where
  | panicked
  | err
  | ok (val : α) (n : Nat)

/-- `ParseTinyInt`: a 7-bit number; bytes above 0x7f are an error. -/
def ParseTinyInt (b : Nat) : Except Unit Nat :=
  if b > 0x7f then .error () else .ok b

/-- `ParseTinyString`: high nibble 0x8, low nibble is the length, bytes
follow.  The slice `buf[1 : size+1]` past the slice end is a panic. -/
def ParseTinyString (buf : List Nat) : PSRes (List Nat) :=
  match buf with
  | [] => .err
  | b :: rest =>
    if b / 16 ≠ 0x8 then .err
    else if b % 16 = 0 then .ok [] 1
    else if rest.length < b % 16 then .panicked
    else .ok (rest.take (b % 16)) (b % 16 + 1)

/-- `binary.BigEndian.Uint64` over the last 8 bytes of its zero-padded input,
as used by `ParseString`. -/
def beNat (bytes : List Nat) : Nat := bytes.foldl (fun acc b => acc * 256 + b) 0

/-- `ParseString`: high nibble 0xd; the low nibble `k` selects a `2^k`-byte
big-endian length, then that many string bytes.  Out-of-range slices panic;
a length whose `int64` reading is negative makes `buf[pos : pos+size]`
invalid, also a panic. -/
def ParseString (buf : List Nat) : PSRes (List Nat) :=
  match buf with
  | [] => .err
  | b :: rest =>
    if b / 16 ≠ 0xd then .err
    else if rest.length < 2 ^ (b % 16) then .panicked
    else
      let sizeBytes := List.replicate 8 0 ++ rest.take (2 ^ (b % 16))
      let size := beNat (sizeBytes.drop (sizeBytes.length - 8))
      if 2 ^ 63 ≤ size then .panicked
      else if rest.length < 2 ^ (b % 16) + size then .panicked
      else .ok ((rest.drop (2 ^ (b % 16))).take size) (1 + 2 ^ (b % 16) + size)

/-- Element loop of `ParseTinyArray`: supported member types are tiny-int,
tiny-string and string; anything else is an error return.  Indexing past the
buffer panics. -/
def parseArrayElems : Nat → List Nat → PSRes (List PSValue)
  | 0, _ => .ok [] 0
  | count + 1, buf =>
    match buf with
    | [] => .panicked
    | b :: _ =>
      if b / 16 ≤ 0x7 then
        match ParseTinyInt b with
        | .error _ => .err
        | .ok v =>
          match parseArrayElems count (buf.drop 1) with
          | .ok vs n => .ok (.int v :: vs) (n + 1)
          | .err => .err
          | .panicked => .panicked
      else if b / 16 = 0x8 then
        match ParseTinyString buf with
        | .ok s n =>
          match parseArrayElems count (buf.drop n) with
          | .ok vs m => .ok (.str s :: vs) (n + m)
          | .err => .err
          | .panicked => .panicked
        | .err => .err
        | .panicked => .panicked
      else if b / 16 = 0xd then
        match ParseString buf with
        | .ok s n =>
          match parseArrayElems count (buf.drop n) with
          | .ok vs m => .ok (.str s :: vs) (n + m)
          | .err => .err
          | .panicked => .panicked
        | .err => .err
        | .panicked => .panicked
      else .err

/-- `ParseTinyArray`: high nibble 0x9, low nibble is the element count.
`buf[0]` on an empty slice is a panic. -/
def ParseTinyArray (buf : List Nat) : PSRes (List PSValue) :=
  match buf with
  | [] => .panicked
  | b :: rest =>
    if b / 16 ≠ 0x9 then .err
    else
      match parseArrayElems (b % 16) rest with
      | .ok vs n => .ok vs (n + 1)
      | .err => .err
      | .panicked => .panicked

/-- Go map assignment `m[k] = v` on an association list: replace the value in
place when the key exists, otherwise append. -/
def upsert {α β : Type} [DecidableEq α] : List (α × β) → α → β → List (α × β)
  | [], k, v => [(k, v)]
  | (k', v') :: rest, k, v =>
    if k' = k then (k, v) :: rest else (k', v') :: upsert rest k v

/-- Go map lookup `m[k]` on an association list. -/
def assocFind {α β : Type} [DecidableEq α] : List (α × β) → α → Option β
  | [], _ => none
  | (k', v') :: rest, k => if k' = k then some v' else assocFind rest k

/-- Replay of Go's `result[name] = val` assignments, in read order. -/
def buildMap (pairs : List (List Nat × PSValue)) : List (List Nat × PSValue) :=
  pairs.foldl (fun acc kv => upsert acc kv.1 kv.2) []

theorem parseTinyString_ok_pos {buf s : List Nat} {n : Nat}
    (h : ParseTinyString buf = .ok s n) : 1 ≤ n := by
  rcases buf with _ | ⟨b, rest⟩
  · simp [ParseTinyString] at h
  · simp only [ParseTinyString] at h
    split at h
    · cases h
    · split at h
      · cases h; omega
      · split at h
        · cases h
        · cases h; omega

set_option linter.unusedVariables false in
/-- The member loop of `ParseTinyMap`.  Each iteration parses a tiny-string
key (a parse error there is a `panic(err)`), then dispatches on the high
nibble of the value byte: tiny-int, tiny-string, tiny-array, string and
nested tiny-map are supported, each sub-error being a `panic(err)`; any
other nibble is the `unsupported encoding type` error return.  Indexing
`buf[pos]` past the buffer panics.  The nested tiny-map value re-enters
`ParseTinyMap` on `buf[pos:]`, whose nonempty / high-nibble-0xa header
checks already hold at that point, so the nested call is the member loop on
the bytes after the header directly.  Pairs are returned in read order;
`buildMap` replays the Go map assignments. -/
def parseMembers : Nat → List Nat → PSRes (List (List Nat × PSValue))
  | 0, _ => .ok [] 0
  | count + 1, buf =>
    match hk : ParseTinyString buf with
    | .panicked => .panicked
    | .err => .panicked
    | .ok name keyN =>
      match hv : buf.drop keyN with
      | [] => .panicked
      | b :: _ =>
        if b / 16 ≤ 0x7 then
          match ParseTinyInt b with
          | .error _ => .panicked
          | .ok v =>
            match parseMembers count (buf.drop (keyN + 1)) with
            | .ok pairs n => .ok ((name, .int v) :: pairs) (keyN + 1 + n)
            | .err => .err
            | .panicked => .panicked
        else if b / 16 = 0x8 then
          match ParseTinyString (buf.drop keyN) with
          | .ok s n =>
            match parseMembers count (buf.drop (keyN + n)) with
            | .ok pairs m => .ok ((name, .str s) :: pairs) (keyN + n + m)
            | .err => .err
            | .panicked => .panicked
          | .err => .panicked
          | .panicked => .panicked
        else if b / 16 = 0x9 then
          match ParseTinyArray (buf.drop keyN) with
          | .ok a n =>
            match parseMembers count (buf.drop (keyN + n)) with
            | .ok pairs m => .ok ((name, .arr a) :: pairs) (keyN + n + m)
            | .err => .err
            | .panicked => .panicked
          | .err => .panicked
          | .panicked => .panicked
        else if b / 16 = 0xd then
          match ParseString (buf.drop keyN) with
          | .ok s n =>
            match parseMembers count (buf.drop (keyN + n)) with
            | .ok pairs m => .ok ((name, .str s) :: pairs) (keyN + n + m)
            | .err => .err
            | .panicked => .panicked
          | .err => .panicked
          | .panicked => .panicked
        else if b / 16 = 0xa then
          match parseMembers (b % 16) (buf.drop (keyN + 1)) with
          | .ok sub n =>
            match parseMembers count (buf.drop (keyN + 1 + n)) with
            | .ok pairs m => .ok ((name, .map (buildMap sub)) :: pairs) (keyN + 1 + n + m)
            | .err => .err
            | .panicked => .panicked
          | .err => .panicked
          | .panicked => .panicked
        else .err
  termination_by _ buf => buf.length
  decreasing_by
    all_goals
      have h1 := parseTinyString_ok_pos hk
      have h2 := congrArg List.length hv
      simp only [List.length_drop, List.length_cons] at h2
      simp only [List.length_drop]
      omega

/-- `ParseTinyMap`: parse the leading PackStream tiny-map of a byte slice.
An empty slice is the `bytes empty` error return; a first byte whose high
nibble is not 0xa hits the debug `panic` (the error return placed after that
panic is unreachable). -/
def ParseTinyMap (buf : List Nat) : PSRes (List (List Nat × PSValue)) :=
  match buf with
  | [] => .err
  | b :: rest =>
    if b / 16 ≠ 0xa then .panicked
    else
      match parseMembers (b % 16) rest with
      | .ok pairs n => .ok (buildMap pairs) (n + 1)
      | .err => .err
      | .panicked => .panicked

/-- `RoutingTable` snapshot.  The struct itself is declared in a backend file
not under src/; the fields here are the ones the embedded code reads and
`getNewRoutingTable` fills: the default database name, the per-database
reader and writer lists, the host set (a Go `map[string]bool`, modelled as
its list of keys in insertion order), and the TTL (its raw second count).
The creation timestamp and the time-dependent `Expired` check are not
modelled. -/
structure RoutingTable where
  DefaultDb : String
  readers : List (String × List String)
  writers : List (String × List String)
  Hosts : List String
  Ttl : Int

/-- Modelled from the spec: `RoutingTable.WritersFor` is declared in a backend
file that is not under src/.  Per the spec the authenticator picks "the first
writer of the default database", so `WritersFor` returns the ordered writer
list recorded for the database; a database missing from the mapping yields
Go's nil slice, the empty list (the error it also returns is discarded with
`_` at the call site). -/
def WritersFor (rt : RoutingTable) (db : String) : List String :=
  (assocFind rt.writers db).getD []

/-- Result of `Backend.Authenticate`: a panic of the session goroutine, an
error return `(nil, err)`, or a host-to-connection map `(conns, nil)`.
Connections are opaque and numbered. -/
inductive AuthOutcome where
  | panicked
  | err (e : String)
  | ok (conns : List (String × Nat))
  deriving DecidableEq

/-- The bytes of the Go string literal "principal". -/
def principalKey : List Nat :=
  [0x70, 0x72, 0x69, 0x6e, 0x63, 0x69, 0x70, 0x61, 0x6c]

/-- `Backend.Authenticate`, instrumented with the ordered list of hosts passed
to `authClient`.  `authClient` dials and authenticates against one host; it
lives in a backend file not under src/ and is abstracted as an oracle from
the HELLO bytes and a host to either an error or an opened connection.  The
routing table is a parameter, standing for the `b.RoutingTable()` refresh.

Faithful panic points: a non-HELLO message; `hello.Data[4:]` on fewer than 4
bytes; a tiny-map parse error (`panic(err)`); a missing or non-string
principal (failed type assertion); `writers[0]` on an empty writer list.
The probe against the first default-database writer is serial: on failure
the error is returned with no further attempt.  On probe success the fan-out
goroutines run over every other host of `rt.Hosts` (sequentialised here in
list order); per-host failures are logged and omitted, successes are
inserted into the connection map seeded with the probe connection. -/
def Authenticate (authClient : List Nat → String → Except String Nat)
    (rt : RoutingTable) (hello : Message) : AuthOutcome × List String :=
  if hello.T ≠ HelloMsg then (.panicked, [])
  else if hello.Data.length < 4 then (.panicked, [])
  else
    match ParseTinyMap (hello.Data.drop 4) with
    | .panicked => (.panicked, [])
    | .err => (.panicked, [])
    | .ok msg _ =>
      match assocFind msg principalKey with
      | some (.str _) =>
        match WritersFor rt rt.DefaultDb with
        | [] => (.panicked, [])
        | defaultWriter :: _ =>
          match authClient hello.Data defaultWriter with
          | .error e => (.err e, [defaultWriter])
          | .ok conn =>
            (.ok (((rt.Hosts.filter (fun x => x ≠ defaultWriter)).filterMap (fun x =>
                match authClient hello.Data x with
                | .error _ => none
                | .ok c => some (x, c))).foldl
              (fun acc p => upsert acc p.1 p.2) [(defaultWriter, conn)]),
              defaultWriter :: rt.Hosts.filter (fun x => x ≠ defaultWriter))
      | _ => (.panicked, [])

/-- C2: with a HELLO whose tiny-map carries a string principal,
`Authenticate` probes the first writer of the default database serially;
when that probe fails it returns the error immediately, and the probe host
is the only host authentication was attempted against. -/
theorem authenticate_probe_fails_fast
    (authClient : List Nat → String → Except String Nat) (rt : RoutingTable)
    (hello : Message) (m : List (List Nat × PSValue)) (k : Nat) (s : List Nat)
    (w : String) (ws : List String) (e : String)
    (hT : hello.T = HelloMsg) (hlen : 4 ≤ hello.Data.length)
    (hparse : ParseTinyMap (hello.Data.drop 4) = .ok m k)
    (hp : assocFind m principalKey = some (.str s))
    (hw : WritersFor rt rt.DefaultDb = w :: ws)
    (hfail : authClient hello.Data w = .error e) :
    Authenticate authClient rt hello = (.err e, [w]) := by
  have h4 : ¬hello.Data.length < 4 := by omega
  unfold Authenticate
  simp only [hT, ne_eq, not_true_eq_false, if_false, h4, hparse, hp, hw, hfail]

theorem assocFind_upsert_ne {α β : Type} [DecidableEq α] (l : List (α × β))
    (k w : α) (v : β) (h : k ≠ w) :
    assocFind (upsert l k v) w = assocFind l w := by
  induction l with
  | nil => simp [upsert, assocFind, h]
  | cons p rest ih =>
    obtain ⟨a, b⟩ := p
    by_cases hk : a = k
    · subst hk
      simp [upsert, assocFind, h]
    · by_cases hw : a = w <;> simp [upsert, hk, assocFind, hw, ih, Ne.symm h]

theorem assocFind_foldl_upsert {α β : Type} [DecidableEq α] (l : List (α × β))
    (acc : List (α × β)) (w : α) (h : ∀ p ∈ l, p.1 ≠ w) :
    assocFind (l.foldl (fun a p => upsert a p.1 p.2) acc) w = assocFind acc w := by
  induction l generalizing acc with
  | nil => simp
  | cons p rest ih =>
    simp only [List.foldl_cons]
    rw [ih _ (fun q hq => h q (List.mem_cons_of_mem _ hq)),
      assocFind_upsert_ne _ _ _ _ (h p (List.mem_cons_self _ _))]

/-- C10 (implicit): whenever `Authenticate` returns without error, the
returned host-to-connection map contains the first writer of the default
database as a key — so the map is never empty on success. -/
theorem authenticate_ok_has_default_writer
    (authClient : List Nat → String → Except String Nat) (rt : RoutingTable)
    (hello : Message) (conns : List (String × Nat)) (att : List String)
    (h : Authenticate authClient rt hello = (.ok conns, att)) :
    ∃ w ws c, WritersFor rt rt.DefaultDb = w :: ws ∧ assocFind conns w = some c := by
  unfold Authenticate at h
  split at h
  · simp at h
  split at h
  · simp at h
  split at h
  · simp at h
  · simp at h
  rename_i msg k
  split at h
  rotate_left
  · simp at h
  rename_i s hfind
  split at h
  · simp at h
  rename_i defaultWriter rest hwr
  split at h
  · simp at h
  rename_i conn hconn
  simp only [Prod.mk.injEq, AuthOutcome.ok.injEq] at h
  obtain ⟨hc, -⟩ := h
  subst hc
  refine ⟨defaultWriter, rest, conn, hwr, ?_⟩
  rw [assocFind_foldl_upsert]
  · simp [assocFind]
  · intro p hp
    obtain ⟨a, ha, hfa⟩ := List.mem_filterMap.mp hp
    have hane : a ≠ defaultWriter := by
      have := List.mem_filter.mp ha
      simpa using this.2
    revert hfa
    cases authClient hello.Data a with
    | error _ => intro hfa; cases hfa
    | ok c =>
      intro hfa
      cases hfa
      exact hane

/-- A HELLO frame whose payload tiny-map is `{principal: "neo4j"}`. -/
def helloSample : Message :=
  ⟨HelloMsg, [0x00, 0x00, 0x00, 0x00,
    0xa1, 0x89, 0x70, 0x72, 0x69, 0x6e, 0x63, 0x69, 0x70, 0x61, 0x6c,
    0x85, 0x6e, 0x65, 0x6f, 0x34, 0x6a]⟩

/-- A three-host routing snapshot whose default database has writer h1 and
readers h2, h3. -/
def rtSample : RoutingTable :=
  { DefaultDb := "neo4j"
    readers := [("neo4j", ["h2", "h3"])]
    writers := [("neo4j", ["h1"])]
    Hosts := ["h1", "h2", "h3"]
    Ttl := 300 }

/-- Witness for C2: h1 (the default writer) rejects the HELLO; the
authenticator returns that failure and attempts no other host. -/
theorem authenticate_probe_fails_fast_witness :
    Authenticate (fun _ x => if x = "h1" then .error "denied" else .ok 0)
      rtSample helloSample = (.err "denied", ["h1"]) :=
  authenticate_probe_fails_fast
    (fun _ x => if x = "h1" then .error "denied" else .ok 0) rtSample helloSample
    [(principalKey, .str [0x6e, 0x65, 0x6f, 0x34, 0x6a])] 17
    [0x6e, 0x65, 0x6f, 0x34, 0x6a] "h1" [] "denied"
    rfl (by simp [helloSample])
    (by simp [helloSample, ParseTinyMap, parseMembers, ParseTinyString, buildMap,
      upsert, principalKey])
    (by simp [assocFind])
    (by simp [WritersFor, rtSample, assocFind])
    (by simp)

/-- C8 (code bug): on a HELLO whose tiny-map payload decodes but contains no
`principal` entry, `Authenticate` panics at the failed string type assertion
("principal in Hello message was not a string") instead of returning an
error, so the session goroutine dies rather than authentication failing
cleanly. -/
theorem authenticate_missing_principal_panics :
    Authenticate (fun _ _ => .ok 0) rtSample ⟨HelloMsg, [0, 0, 0, 0, 0xa0]⟩
      = (.panicked, []) := by
  simp [Authenticate, ParseTinyMap, parseMembers, buildMap, assocFind,
    principalKey]

/-- Witness for C10: with every host accepting, the returned map holds all
three hosts and the default writer h1 is a key. -/
theorem authenticate_ok_has_default_writer_witness :
    ∃ w ws c, WritersFor rtSample rtSample.DefaultDb = w :: ws ∧
      assocFind [("h1", 7), ("h2", 7), ("h3", 7)] w = some c :=
  authenticate_ok_has_default_writer (fun _ _ => .ok 7) rtSample helloSample
    [("h1", 7), ("h2", 7), ("h3", 7)] ["h1", "h2", "h3"]
    (by simp [Authenticate, helloSample, rtSample, ParseTinyMap, parseMembers,
      ParseTinyString, buildMap, upsert, assocFind, principalKey, WritersFor])

/-- The local `table` struct of monitor.go: raw per-database routing rows.
`ttl` keeps the raw second count that Go scales to a `time.Duration`. -/
structure table where
  db : String
  ttl : Int
  readers : List String
  writers : List String

/-- One collected row of the denormalised ROUTING_QUERY result:
`(name, ttl, role, address)`.  The driver-level `row.Get` / type-assertion
dance of `routingTableTx` is collapsed into typed fields. -/
structure RTRow where
  name : String
  ttl : Int
  role : String
  address : String

/-- The row loop of `routingTableTx`: look up (or create) the database's
entry, append the address to its reader or writer list by role and store the
entry back, skip ROUTE rows entirely (their `continue` precedes the
`tableMap[name] = t` write, so a database with only ROUTE rows never enters
the map), and fail on any other role. -/
def routingRows : List RTRow → List (String × table) → Except String (List (String × table))
  | [], acc => .ok acc
  | row :: rest, acc =>
    if row.role = "READ" then
      routingRows rest (upsert acc row.name
        { (assocFind acc row.name).getD { db := row.name, ttl := row.ttl, readers := [], writers := [] } with
          readers := ((assocFind acc row.name).getD
            { db := row.name, ttl := row.ttl, readers := [], writers := [] }).readers ++ [row.address] })
    else if row.role = "WRITE" then
      routingRows rest (upsert acc row.name
        { (assocFind acc row.name).getD { db := row.name, ttl := row.ttl, readers := [], writers := [] } with
          writers := ((assocFind acc row.name).getD
            { db := row.name, ttl := row.ttl, readers := [], writers := [] }).writers ++ [row.address] })
    else if row.role = "ROUTE" then routingRows rest acc
    else .error "invalid role"

/-- `routingTableTx`: collect the routing rows into the per-database table
map, starting from an empty map. -/
def routingTableTx (rows : List RTRow) : Except String (List (String × table)) :=
  routingRows rows []

/-- `rt.Hosts[host] = true` on the Go `map[string]bool` host set: record the
key once. -/
def addHost (hs : List String) (h : String) : List String :=
  if h ∈ hs then hs else hs ++ [h]

/-- The `for _, host := range ...` loops filling the host set. -/
def addHosts : List String → List String → List String
  | hs, [] => hs
  | hs, h :: t => addHosts (addHost hs h) t

/-- The `for db, t := range tableMap` loop of `getNewRoutingTable`: copy the
reader and writer lists into the role mappings under the database key, take
the (redundantly overwritten) TTL, and add every reader and writer host to
the host set. -/
def buildLoop : List (String × table) → RoutingTable → RoutingTable
  | [], rt => rt
  | (db, t) :: rest, rt =>
    buildLoop rest
      { rt with
        readers := upsert rt.readers db t.readers
        writers := upsert rt.writers db t.writers
        Ttl := t.ttl
        Hosts := addHosts (addHosts rt.Hosts t.readers) t.writers }

/-- The snapshot-building tail of `getNewRoutingTable`, after the two cluster
queries returned the database names (default first, from SHOW DATABASES) and
the per-database table map.  `names[0]` on an empty name list is an index
panic, modelled as `none`.  Go's map iteration order is unspecified; the
fold walks the association list in order (the properties proved below do not
depend on that order). -/
def buildRoutingTable (names : List String) (tableMap : List (String × table)) :
    Option RoutingTable :=
  match names with
  | [] => none
  | d :: _ =>
    some (buildLoop tableMap
      { DefaultDb := d, readers := [], writers := [], Hosts := [], Ttl := 0 })

theorem mem_upsert_keys {α β : Type} [DecidableEq α] (l : List (α × β)) (k x : α) (v : β) :
    x ∈ (upsert l k v).map Prod.fst ↔ x ∈ l.map Prod.fst ∨ x = k := by
  induction l with
  | nil => simp [upsert]
  | cons p rest ih =>
    obtain ⟨a, b⟩ := p
    by_cases hk : a = k
    · subst hk
      simp [upsert]
      tauto
    · simp [upsert, hk, ih]
      tauto

theorem upsert_keys_nodup {α β : Type} [DecidableEq α] {l : List (α × β)} {k : α} {v : β}
    (h : (l.map Prod.fst).Nodup) : ((upsert l k v).map Prod.fst).Nodup := by
  induction l with
  | nil => simp [upsert]
  | cons p rest ih =>
    obtain ⟨a, b⟩ := p
    simp only [List.map_cons, List.nodup_cons] at h
    by_cases hk : a = k
    · subst hk
      simpa [upsert] using h
    · simp only [upsert, if_neg hk, List.map_cons, List.nodup_cons]
      refine ⟨?_, ih h.2⟩
      rw [mem_upsert_keys]
      rintro (hx | rfl)
      · exact h.1 hx
      · exact hk rfl

theorem routingRows_nodup (rows : List RTRow) :
    ∀ acc out, (acc.map Prod.fst).Nodup → routingRows rows acc = .ok out →
      (out.map Prod.fst).Nodup := by
  induction rows with
  | nil =>
    intro acc out h heq
    simp only [routingRows] at heq
    cases heq
    exact h
  | cons row rest ih =>
    intro acc out h heq
    simp only [routingRows] at heq
    split at heq
    · exact ih _ _ (upsert_keys_nodup h) heq
    · split at heq
      · exact ih _ _ (upsert_keys_nodup h) heq
      · split at heq
        · exact ih _ _ h heq
        · cases heq

theorem upsert_of_not_mem {α β : Type} [DecidableEq α] {l : List (α × β)} {k : α} (v : β)
    (h : k ∉ l.map Prod.fst) : upsert l k v = l ++ [(k, v)] := by
  induction l with
  | nil => rfl
  | cons p rest ih =>
    obtain ⟨a, b⟩ := p
    simp only [List.map_cons, List.mem_cons, not_or] at h
    have hak : ¬a = k := fun hq => h.1 hq.symm
    simp only [upsert, if_neg hak, List.cons_append, List.cons.injEq, true_and]
    exact ih h.2

theorem mem_addHost (hs : List String) (x h : String) :
    x ∈ addHost hs h ↔ x ∈ hs ∨ x = h := by
  unfold addHost
  split <;> rename_i hmem
  · constructor
    · exact .inl
    · rintro (hx | rfl)
      · exact hx
      · exact hmem
  · simp

theorem mem_addHosts (l : List String) :
    ∀ hs x, x ∈ addHosts hs l ↔ x ∈ hs ∨ x ∈ l := by
  induction l with
  | nil => intro hs x; simp [addHosts]
  | cons a t ih =>
    intro hs x
    simp only [addHosts]
    rw [ih (addHost hs a) x, mem_addHost]
    simp only [List.mem_cons]
    tauto

theorem buildLoop_hosts (tm : List (String × table)) :
    ∀ rt : RoutingTable,
      (tm.map Prod.fst).Nodup →
      (∀ p ∈ tm, p.1 ∉ rt.readers.map Prod.fst) →
      (∀ p ∈ tm, p.1 ∉ rt.writers.map Prod.fst) →
      (∀ h, h ∈ rt.Hosts ↔ (∃ p ∈ rt.readers, h ∈ p.2) ∨ (∃ p ∈ rt.writers, h ∈ p.2)) →
      ∀ h, h ∈ (buildLoop tm rt).Hosts ↔
        (∃ p ∈ (buildLoop tm rt).readers, h ∈ p.2) ∨
          (∃ p ∈ (buildLoop tm rt).writers, h ∈ p.2) := by
  induction tm with
  | nil =>
    intro rt _ _ _ hinv h
    simpa [buildLoop] using hinv h
  | cons e rest ih =>
    obtain ⟨db, t⟩ := e
    intro rt hnodup hdr hdw hinv h
    have hnd := List.nodup_cons.mp (by simpa only [List.map_cons] using hnodup)
    simp only [buildLoop]
    apply ih
    · exact hnd.2
    · intro p hp
      rw [mem_upsert_keys]
      rintro (hx | hpd)
      · exact hdr p (List.mem_cons_of_mem _ hp) hx
      · exact hnd.1 (hpd ▸ List.mem_map.mpr ⟨p, hp, rfl⟩)
    · intro p hp
      rw [mem_upsert_keys]
      rintro (hx | hpd)
      · exact hdw p (List.mem_cons_of_mem _ hp) hx
      · exact hnd.1 (hpd ▸ List.mem_map.mpr ⟨p, hp, rfl⟩)
    · intro x
      rw [upsert_of_not_mem _ (hdr (db, t) (List.mem_cons_self _ _)),
        upsert_of_not_mem _ (hdw (db, t) (List.mem_cons_self _ _)),
        mem_addHosts, mem_addHosts, hinv x]
      simp only [List.mem_append, List.mem_singleton]
      constructor
      · rintro ((hx | hr) | hw)
        · rcases hx with ⟨p, hp, hmem⟩ | ⟨p, hp, hmem⟩
          · exact .inl ⟨p, .inl hp, hmem⟩
          · exact .inr ⟨p, .inl hp, hmem⟩
        · exact .inl ⟨(db, t.readers), .inr rfl, hr⟩
        · exact .inr ⟨(db, t.writers), .inr rfl, hw⟩
      · rintro (⟨p, hp | rfl, hmem⟩ | ⟨p, hp | rfl, hmem⟩)
        · exact .inl (.inl (.inl ⟨p, hp, hmem⟩))
        · exact .inl (.inr hmem)
        · exact .inl (.inl (.inr ⟨p, hp, hmem⟩))
        · exact .inr hmem

/-- C3: for a routing snapshot built by the monitor's refresh (rows collected
by `routingTableTx`, snapshot assembled by `getNewRoutingTable`), membership
in `RT.Hosts` is exactly membership in some value list of `RT.readers` or of
`RT.writers`: the host set is the union of both role mappings' hosts. -/
theorem routingTable_hosts_union (rows : List RTRow) (names : List String)
    (tm : List (String × table)) (rt : RoutingTable)
    (htx : routingTableTx rows = .ok tm)
    (hb : buildRoutingTable names tm = some rt) (h : String) :
    h ∈ rt.Hosts ↔ (∃ p ∈ rt.readers, h ∈ p.2) ∨ (∃ p ∈ rt.writers, h ∈ p.2) := by
  have hnodup : (tm.map Prod.fst).Nodup :=
    routingRows_nodup rows [] tm (by simp) htx
  rcases names with _ | ⟨d, ns⟩
  · simp [buildRoutingTable] at hb
  simp only [buildRoutingTable, Option.some.injEq] at hb
  subst hb
  exact buildLoop_hosts tm _ hnodup (by simp) (by simp) (by simp) h

/-- Witness for C3 at two rows (one WRITE, one READ) for database neo4j. -/
theorem routingTable_hosts_union_witness :
    "h2" ∈ (RoutingTable.mk "neo4j" [("neo4j", ["h2"])] [("neo4j", ["h1"])]
        ["h2", "h1"] 300).Hosts ↔
      ((∃ p ∈ (RoutingTable.mk "neo4j" [("neo4j", ["h2"])] [("neo4j", ["h1"])]
          ["h2", "h1"] 300).readers, "h2" ∈ p.2) ∨
        (∃ p ∈ (RoutingTable.mk "neo4j" [("neo4j", ["h2"])] [("neo4j", ["h1"])]
          ["h2", "h1"] 300).writers, "h2" ∈ p.2)) :=
  routingTable_hosts_union
    [{ name := "neo4j", ttl := 300, role := "WRITE", address := "h1" },
     { name := "neo4j", ttl := 300, role := "READ", address := "h2" }]
    ["neo4j"]
    [("neo4j", { db := "neo4j", ttl := 300, readers := ["h2"], writers := ["h1"] })]
    (RoutingTable.mk "neo4j" [("neo4j", ["h2"])] [("neo4j", ["h1"])] ["h2", "h1"] 300)
    (by simp [routingTableTx, routingRows, upsert, assocFind])
    (by simp [buildRoutingTable, buildLoop, upsert, addHosts, addHost])
    "h2"

theorem buildLoop_defaultDb (tm : List (String × table)) :
    ∀ rt, (buildLoop tm rt).DefaultDb = rt.DefaultDb := by
  induction tm with
  | nil => intro rt; rfl
  | cons e rest ih =>
    obtain ⟨db, t⟩ := e
    intro rt
    simp only [buildLoop]
    rw [ih]

theorem mem_keys_buildLoop_readers (tm : List (String × table)) :
    ∀ rt x, (x ∈ rt.readers.map Prod.fst ∨ x ∈ tm.map Prod.fst) →
      x ∈ (buildLoop tm rt).readers.map Prod.fst := by
  induction tm with
  | nil =>
    intro rt x hx
    simp only [buildLoop]
    rcases hx with hx | hx
    · exact hx
    · simp at hx
  | cons e rest ih =>
    obtain ⟨db, t⟩ := e
    intro rt x hx
    simp only [buildLoop]
    apply ih
    rcases hx with hx | hx
    · exact .inl ((mem_upsert_keys _ _ _ _).mpr (.inl hx))
    · rcases (by simpa using hx : x = db ∨ x ∈ rest.map Prod.fst) with rfl | hx
      · exact .inl ((mem_upsert_keys _ _ _ _).mpr (.inr rfl))
      · exact .inr hx

theorem mem_keys_buildLoop_writers (tm : List (String × table)) :
    ∀ rt x, (x ∈ rt.writers.map Prod.fst ∨ x ∈ tm.map Prod.fst) →
      x ∈ (buildLoop tm rt).writers.map Prod.fst := by
  induction tm with
  | nil =>
    intro rt x hx
    simp only [buildLoop]
    rcases hx with hx | hx
    · exact hx
    · simp at hx
  | cons e rest ih =>
    obtain ⟨db, t⟩ := e
    intro rt x hx
    simp only [buildLoop]
    apply ih
    rcases hx with hx | hx
    · exact .inl ((mem_upsert_keys _ _ _ _).mpr (.inl hx))
    · rcases (by simpa using hx : x = db ∨ x ∈ rest.map Prod.fst) with rfl | hx
      · exact .inl ((mem_upsert_keys _ _ _ _).mpr (.inr rfl))
      · exact .inr hx

/-- C6 counterexample: a refresh whose routing query yields only a ROUTE row
for the (default) database neo4j.  `routingTableTx` returns an empty table
map — the `continue` for ROUTE rows precedes the map write — and the built
snapshot has `DefaultDb = "neo4j"` yet neither role mapping contains the key
`"neo4j"`, so the claimed invariant fails on this snapshot. -/
theorem routing_default_key_counterexample :
    routingTableTx [{ name := "neo4j", ttl := 300, role := "ROUTE", address := "h1" }]
        = .ok [] ∧
      ∃ rt, buildRoutingTable ["neo4j"] [] = some rt ∧ rt.DefaultDb = "neo4j" ∧
        assocFind rt.readers "neo4j" = none ∧ assocFind rt.writers "neo4j" = none := by
  refine ⟨by simp [routingTableTx, routingRows], ⟨_, rfl, rfl, rfl, rfl⟩⟩

/-- C6 amended: the default database name is a key of both role mappings
whenever it is a key of the queried table map — that is, whenever the
routing query produced at least one READ or WRITE row for it.  (A database
with only ROUTE rows, possibly the default, is absent from both mappings.) -/
theorem routing_default_key_amended (names : List String) (tm : List (String × table))
    (rt : RoutingTable) (hb : buildRoutingTable names tm = some rt)
    (hd : rt.DefaultDb ∈ tm.map Prod.fst) :
    rt.DefaultDb ∈ rt.readers.map Prod.fst ∧ rt.DefaultDb ∈ rt.writers.map Prod.fst := by
  rcases names with _ | ⟨d, ns⟩
  · simp [buildRoutingTable] at hb
  simp only [buildRoutingTable, Option.some.injEq] at hb
  subst hb
  exact ⟨mem_keys_buildLoop_readers _ _ _ (.inr hd),
    mem_keys_buildLoop_writers _ _ _ (.inr hd)⟩

/-- Witness for the amended C6: one WRITE row for neo4j puts the default
database into both mappings (with an empty reader list). -/
theorem routing_default_key_amended_witness :
    "neo4j" ∈ ([("neo4j", ([] : List String))].map Prod.fst) ∧
      "neo4j" ∈ ([("neo4j", ["h1"])].map Prod.fst) :=
  routing_default_key_amended ["neo4j"]
    [("neo4j", { db := "neo4j", ttl := 300, readers := [], writers := ["h1"] })]
    (RoutingTable.mk "neo4j" [("neo4j", [])] [("neo4j", ["h1"])] ["h1"] 300)
    (by simp [buildRoutingTable, buildLoop, upsert, addHosts, addHost])
    (by simp)

/-- Events the monitor goroutine's select loop can wake on: a TTL ticker
tick, the halt signal, or the 5×TTL watchdog timer firing. -/
inductive MonitorEvent where
  | tick
  | halt
  | watchdog
  deriving DecidableEq

/-- State of the monitor goroutine after a loop iteration: still looping
(with the ticker running or stopped), or process-fatal (`log.Fatalf`). -/
inductive LoopOutcome where
  | looping (tickerOn : Bool)
  | fatal
  deriving DecidableEq

/-- One iteration of the monitor goroutine's `for { select { ... } }` loop.
On a tick (only delivered while the ticker runs) the routing table is
refreshed and the ticker reset; on halt the code calls `ticker.Stop()` and
logs "monitor stopped" but — there being no `return` — falls through to the
next loop iteration; on the 5×TTL watchdog `log.Fatalf` terminates the
process.  No branch leaves the loop normally: the loop body contains no
`return` or `break` statement at all, so `looping` is the only non-fatal
outcome. -/
def monitorStep (tickerOn : Bool) : MonitorEvent → LoopOutcome
  | .tick => .looping tickerOn
  | .halt => .looping false
  | .watchdog => .fatal

/-- The loop run over a sequence of wake-ups. -/
def monitorRun (tickerOn : Bool) : List MonitorEvent → LoopOutcome
  | [] => .looping tickerOn
  | e :: es =>
    match monitorStep tickerOn e with
    | .fatal => .fatal
    | .looping t => monitorRun t es

/-- C9 (code bug): on the halt signal the monitor stops the TTL ticker but
does not return — the loop keeps running — and a later watchdog wake-up
(inevitable after 5×TTL once the ticker is stopped and no further tick can
arrive) reaches `log.Fatalf`, killing the process. -/
theorem monitor_halt_keeps_looping :
    monitorStep true MonitorEvent.halt = .looping false ∧
      monitorRun true [MonitorEvent.halt, MonitorEvent.watchdog] = .fatal :=
  ⟨rfl, rfl⟩

end BoltProxy
